import Mathlib

/-!
# iphunter: a verification development

A shallow embedding of `main.go` (package `main` of iphunter) together with the
parts of Go's `net` / `net/netip` packages that the program calls and whose
results decide its output: `net.ParseIP`, `(net.IP).To4`, `(net.IP).To16`,
`(net.IP).String`, `net.ParseCIDR`, `net.CIDRMask`, `(net.IP).Mask` and
`(*net.IPNet).Contains`, each written after its source in the Go standard library
(Go 1.22), loop for loop.

Conventions.
* A Go `string` is a Lean `String`; the parsers walk its characters.  Every
  character the parsers test for is ASCII, so a walk over characters and a walk
  over UTF-8 bytes take the same branches.
* A Go `net.IP` / `net.IPMask` (a byte slice) is a `List Nat` of byte values; the
  nil slice is the empty list.
* The two calls whose answer comes from outside the process are parameters
  (`Env`): `net.LookupIP` (the system resolver) and `url.Parse` followed by
  `(*url.URL).Hostname`.
* The package-level variables `cloudflareIPs` and `cache`, and the channel
  `resultChannel`, are explicit state.  The functions are run one call after
  another, as a single worker runs them; the mutex around `cache.m` has no
  counterpart.
* `isCloudflareIP` prints a warning with `fmt.Printf` for an entry that is no CIDR
  block; the warning goes to standard output directly, not to `resultChannel`.
  The function is embedded as its result (`isCloudflareIP`) and the lines it
  writes (`isCloudflareIPPrinted`); the lines written by its callers follow in
  `formatResultPrinted`, `resolveAndPrintDomainPrinted`, `processInputPrinted` and
  `workerPrinted`, and `standardOutput` is what a run puts on standard output.
-/

namespace IPHunter

/-! ## Go's `net` package -/

/-- A Go `net.IP`: a slice of bytes. -/
abbrev IP := List Nat

/-- The twelve bytes `v4InV6Prefix` of package `net`. -/
def v4InV6Prefix : List Nat := [0, 0, 0, 0, 0, 0, 0, 0, 0, 0, 255, 255]

/-- The loop of `parseIPv4Fields` (package `net/netip`), one character per step.
`first` says the character is at index 0, `prevDot` that the character before it
is a dot; `fields` holds the octets completed so far (`pos` is its length), `val`
and `digLen` are the loop's variables.  `none` is any of its errors; otherwise
the completed octets and the value of the last one. -/
def parseIPv4Loop : List Char → Bool → Bool → List Nat → Nat → Nat → Option (List Nat × Nat)
  | [], _, _, fields, val, _ => some (fields, val)
  | c :: rest, first, prevDot, fields, val, digLen =>
    if 48 ≤ c.toNat ∧ c.toNat ≤ 57 then
      if digLen = 1 ∧ val = 0 then none
      else if val * 10 + (c.toNat - 48) > 255 then none
      else parseIPv4Loop rest false false fields (val * 10 + (c.toNat - 48)) (digLen + 1)
    else if c = '.' then
      if first ∨ rest = [] ∨ prevDot then none
      else if fields.length = 3 then none
      else parseIPv4Loop rest false true (fields ++ [val]) 0 0
    else none

/-- Go's `parseIPv4Fields`: the four octets of a dotted-decimal string. -/
def parseIPv4Fields (s : List Char) : Option (List Nat) :=
  match parseIPv4Loop s true false [] 0 0 with
  | none => none
  | some (fields, val) => if fields.length < 3 then none else some (fields ++ [val])

/-- The value of a hexadecimal digit, as the three ranges of `parseIPv6` read it. -/
def hexVal (c : Char) : Option Nat :=
  if 48 ≤ c.toNat ∧ c.toNat ≤ 57 then some (c.toNat - 48)
  else if 97 ≤ c.toNat ∧ c.toNat ≤ 102 then some (c.toNat - 97 + 10)
  else if 65 ≤ c.toNat ∧ c.toNat ≤ 70 then some (c.toNat - 65 + 10)
  else none

/-- The inner loop of `parseIPv6` that reads one hexadecimal group: `off` digits
read so far with value `acc`.  `none` when the group has more than four digits
or exceeds 16 bits; otherwise the final `off`, `acc` and the unread rest. -/
def hexRun : List Char → Nat → Nat → Option (Nat × Nat × List Char)
  | [], off, acc => some (off, acc, [])
  | c :: rest, off, acc =>
    match hexVal c with
    | none => some (off, acc, c :: rest)
    | some d =>
      if off > 3 then none
      else if acc * 16 + d > 65535 then none
      else hexRun rest (off + 1) (acc * 16 + d)

/-- The main loop of `parseIPv6`.  `n` counts the 16-bit groups still free
(the Go loop runs while `i < 16`, with `i` the length of `ip`), `s` is the unread
text, `ip` the bytes written so far and `ellipsis` the position of `::`, if seen.
`none` is any of the loop's errors; otherwise the state the loop leaves. -/
def parseIPv6Loop : Nat → List Char → List Nat → Option Nat →
    Option (List Char × List Nat × Option Nat)
  | 0, s, ip, ellipsis => some (s, ip, ellipsis)
  | n + 1, s, ip, ellipsis =>
    match hexRun s 0 0 with
    | none => none
    | some (off, acc, rest) =>
      if off = 0 then none
      else if rest.head? = some '.' then
        if ellipsis = none ∧ ip.length ≠ 12 then none
        else if ip.length + 4 > 16 then none
        else
          match parseIPv4Fields s with
          | none => none
          | some v4 => some ([], ip ++ v4, ellipsis)
      else
        match rest with
        | [] => some ([], ip ++ [acc / 256, acc % 256], ellipsis)
        | c :: rest1 =>
          if c ≠ ':' then none
          else
            match rest1 with
            | [] => none
            | c1 :: rest2 =>
              if c1 = ':' then
                if ellipsis ≠ none then none
                else if rest2 = [] then
                  some ([], ip ++ [acc / 256, acc % 256], some (ip.length + 2))
                else parseIPv6Loop n rest2 (ip ++ [acc / 256, acc % 256]) (some (ip.length + 2))
              else parseIPv6Loop n rest1 (ip ++ [acc / 256, acc % 256]) ellipsis

/-- What follows the main loop of `parseIPv6`: the whole text must be used, and a
short address is filled with zero bytes at the ellipsis. -/
def parseIPv6Finish (s : List Char) (ip : List Nat) (ellipsis : Option Nat) : Option (List Nat) :=
  if s ≠ [] then none
  else if ip.length < 16 then
    match ellipsis with
    | none => none
    | some e => some (ip.take e ++ List.replicate (16 - ip.length) 0 ++ ip.drop e)
  else if ellipsis ≠ none then none
  else some ip

/-- Go's `parseIPv6` on the text before the zone: the sixteen bytes.  A leading
`::` sets the ellipsis at position 0. -/
def parseIPv6Body (s : List Char) : Option (List Nat) :=
  if s.take 2 = [':', ':'] then
    if s.drop 2 = [] then some (List.replicate 16 0)
    else
      match parseIPv6Loop 8 (s.drop 2) [] (some 0) with
      | none => none
      | some (s1, ip, ellipsis) => parseIPv6Finish s1 ip ellipsis
  else
    match parseIPv6Loop 8 s [] none with
    | none => none
    | some (s1, ip, ellipsis) => parseIPv6Finish s1 ip ellipsis

/-- A parsed `netip.Addr`: a 4-byte address, or a 16-byte address with its zone. -/
inductive Addr
  | v4 (b : List Nat)
  | v6 (b : List Nat) (zone : List Char)
deriving DecidableEq, Repr

/-- Go's `parseIPv6`: the zone is split off at the first `%` (an empty zone is an
error), the rest is parsed as the address. -/
def parseIPv6 (s : List Char) : Option Addr :=
  if '%' ∈ s then
    if (s.dropWhile (· ≠ '%')).drop 1 = [] then none
    else (parseIPv6Body (s.takeWhile (· ≠ '%'))).map
      (fun b => Addr.v6 b ((s.dropWhile (· ≠ '%')).drop 1))
  else (parseIPv6Body s).map (fun b => Addr.v6 b [])

/-- The dispatch loop of `netip.ParseAddr`: the first of `.`, `:` and `%` in the
text decides the parser (`whole` is the complete text, `s` what is left to scan). -/
def parseAddrScan (whole : List Char) : List Char → Option Addr
  | [] => none
  | c :: rest =>
    if c = '.' then (parseIPv4Fields whole).map Addr.v4
    else if c = ':' then parseIPv6 whole
    else if c = '%' then none
    else parseAddrScan whole rest

/-- Go's `netip.ParseAddr`. -/
def ParseAddr (s : String) : Option Addr := parseAddrScan s.data s.data

/-- Go's `(netip.Addr).As16`. -/
def Addr.As16 : Addr → List Nat
  | .v4 b => v4InV6Prefix ++ b
  | .v6 b _ => b

/-- Go's `(netip.Addr).BitLen`. -/
def Addr.BitLen : Addr → Nat
  | .v4 _ => 32
  | .v6 _ _ => 128

/-- Go's `(netip.Addr).Zone`. -/
def Addr.Zone : Addr → List Char
  | .v4 _ => []
  | .v6 _ z => z

/-- Go's `net.ParseIP`: the 16-byte form of the address, `none` (Go's nil) when the
text is not an address or carries a zone. -/
def ParseIP (s : String) : Option IP :=
  match ParseAddr s with
  | none => none
  | some a => if a.Zone ≠ [] then none else some a.As16

/-- Go's `(net.IP).To4`: `none` is Go's nil. -/
def To4 (ip : IP) : Option IP :=
  if ip.length = 4 then some ip
  else if ip.length = 16 ∧ ip.take 10 = List.replicate 10 0 ∧ (ip.drop 10).take 2 = [255, 255] then
    some (ip.drop 12)
  else none

/-- Go's `(net.IP).To16`: `none` is Go's nil. -/
def To16 (ip : IP) : Option IP :=
  if ip.length = 4 then some (v4InV6Prefix ++ ip)
  else if ip.length = 16 then some ip
  else none

/-- The table `digits` / `hexDigit` of package `net/netip`, indexed by value. -/
def hexDigit (d : Nat) : Char :=
  "0123456789abcdef".data.getD d '0'

/-- Go's `appendDecimal`: a byte in decimal, without leading zeros. -/
def appendDecimal (x : Nat) : List Char :=
  (if x ≥ 100 then [hexDigit (x / 100)] else []) ++
  (if x ≥ 10 then [hexDigit (x / 10 % 10)] else []) ++
  [hexDigit (x % 10)]

/-- Go's `appendHex`: a 16-bit value in lowercase hexadecimal, without leading zeros. -/
def appendHex (x : Nat) : List Char :=
  (if x ≥ 4096 then [hexDigit (x / 4096)] else []) ++
  (if x ≥ 256 then [hexDigit (x / 256 % 16)] else []) ++
  (if x ≥ 16 then [hexDigit (x / 16 % 16)] else []) ++
  [hexDigit (x % 16)]

/-- Go's `(netip.Addr).string4`, on the four bytes. -/
def string4 (b : List Nat) : List Char :=
  appendDecimal (b.getD 0 0) ++ ['.'] ++ appendDecimal (b.getD 1 0) ++ ['.'] ++
  appendDecimal (b.getD 2 0) ++ ['.'] ++ appendDecimal (b.getD 3 0)

/-- Go's `(netip.Addr).v6u16`: the `i`-th 16-bit group of sixteen bytes. -/
def v6u16 (b : List Nat) (i : Nat) : Nat :=
  b.getD (2 * i) 0 * 256 + b.getD (2 * i + 1) 0

/-- The inner loop of the first pass of `appendTo6`: from group `j`, the index of
the first non-zero group (or 8). -/
def zeroRunEnd (b : List Nat) : Nat → Nat → Nat
  | 0, j => j
  | fuel + 1, j => if j < 8 ∧ v6u16 b j = 0 then zeroRunEnd b fuel (j + 1) else j

/-- The first pass of `appendTo6`: the first longest run of at least two zero
groups, as `(zeroStart, zeroEnd)`; `(255, 255)` when there is none.  `k` groups
remain to be visited, the current one is `8 - k`. -/
def zeroSpan (b : List Nat) : Nat → Nat × Nat → Nat × Nat
  | 0, z => z
  | k + 1, z =>
    let i := 8 - (k + 1)
    let j := zeroRunEnd b 8 i
    if j - i ≥ 2 ∧ j - i > z.2 - z.1 then zeroSpan b k (i, j) else zeroSpan b k z

/-- The second pass of `appendTo6`: the text from group `i` on (`fuel` bounds the
number of groups still to print). -/
def appendGroups (b : List Nat) (z : Nat × Nat) : Nat → Nat → List Char
  | 0, _ => []
  | fuel + 1, i =>
    if i ≥ 8 then []
    else if i = z.1 then
      if z.2 ≥ 8 then [':', ':']
      else [':', ':'] ++ appendHex (v6u16 b z.2) ++ appendGroups b z fuel (z.2 + 1)
    else if i > 0 then [':'] ++ appendHex (v6u16 b i) ++ appendGroups b z fuel (i + 1)
    else appendHex (v6u16 b i) ++ appendGroups b z fuel (i + 1)

/-- Go's `(netip.Addr).string6` for an address without zone, on the sixteen bytes. -/
def string6 (b : List Nat) : List Char :=
  appendGroups b (zeroSpan b 8 (255, 255)) 8 0

/-- Go's `hexString`: two lowercase hexadecimal digits per byte. -/
def hexString (b : List Nat) : List Char :=
  b.flatMap (fun x => [hexDigit (x / 16), hexDigit (x % 16)])

/-- Go's `(net.IP).String`. -/
def IP.String (ip : IP) : String :=
  if ip.length = 0 then "<nil>"
  else if ip.length ≠ 4 ∧ ip.length ≠ 16 then String.mk ('?' :: hexString ip)
  else
    match To4 ip with
    | some p4 => String.mk (string4 p4)
    | none => String.mk (string6 ip)

/-- Go's `net.CIDRMask`, the loop over the `l` bytes of the mask with `n` ones left. -/
def cidrMaskBytes : Nat → Nat → List Nat
  | 0, _ => []
  | l + 1, n =>
    if n ≥ 8 then 255 :: cidrMaskBytes l (n - 8)
    else (255 - 255 / 2 ^ n) :: cidrMaskBytes l 0

/-- Go's `net.CIDRMask`: `none` is Go's nil. -/
def CIDRMask (ones bits : Nat) : Option (List Nat) :=
  if bits ≠ 32 ∧ bits ≠ 128 then none
  else if ones > bits then none
  else some (cidrMaskBytes (bits / 8) ones)

/-- Go's `(net.IP).Mask`: `none` is Go's nil. -/
def Mask (ip : IP) (mask : List Nat) : Option IP :=
  let mask1 := if mask.length = 16 ∧ ip.length = 4 ∧ mask.take 12 = List.replicate 12 255
    then mask.drop 12 else mask
  let ip1 := if mask1.length = 4 ∧ ip.length = 16 ∧ ip.take 12 = v4InV6Prefix
    then ip.drop 12 else ip
  if ip1.length ≠ mask1.length then none
  else some (List.zipWith (fun a m => a &&& m) ip1 mask1)

/-- A Go `net.IPNet`: network number and mask. -/
structure IPNet where
  IP : List Nat
  Mask : List Nat
deriving DecidableEq, Repr

/-- Go's `dtoi`: the decimal number at the start of the text, with the number of
characters read; `none` when there is no digit or the value reaches `0xFFFFFF`. -/
def dtoiLoop : List Char → Nat → Nat → Option (Nat × Nat)
  | [], n, i => if i = 0 then none else some (n, i)
  | c :: rest, n, i =>
    if 48 ≤ c.toNat ∧ c.toNat ≤ 57 then
      if n * 10 + (c.toNat - 48) ≥ 16777215 then none
      else dtoiLoop rest (n * 10 + (c.toNat - 48)) (i + 1)
    else if i = 0 then none else some (n, i)

/-- Go's `net.ParseCIDR`, the `*IPNet` it returns; `none` when it returns an error. -/
def ParseCIDR (s : String) : Option IPNet :=
  if '/' ∈ s.data then
    let addr := s.data.takeWhile (· ≠ '/')
    let mask := (s.data.dropWhile (· ≠ '/')).drop 1
    match parseAddrScan addr addr with
    | none => none
    | some ipAddr =>
      if ipAddr.Zone ≠ [] then none
      else
        match dtoiLoop mask 0 0 with
        | none => none
        | some (n, i) =>
          if i ≠ mask.length ∨ n > ipAddr.BitLen then none
          else
            match CIDRMask n ipAddr.BitLen with
            | none => none
            | some m =>
              match Mask ipAddr.As16 m with
              | none => none
              | some nn => some { IP := nn, Mask := m }
  else none

/-- Go's `networkNumberAndMask`; `none` is the pair of nils. -/
def networkNumberAndMask (n : IPNet) : Option (IP × List Nat) :=
  match (match To4 n.IP with
         | some ip => some ip
         | none => if n.IP.length ≠ 16 then none else some n.IP) with
  | none => none
  | some ip =>
    if n.Mask.length = 4 then
      if ip.length ≠ 4 then none else some (ip, n.Mask)
    else if n.Mask.length = 16 then
      if ip.length = 4 then some (ip, n.Mask.drop 12) else some (ip, n.Mask)
    else none

/-- The comparison loop of `(*IPNet).Contains`: every byte agrees under the mask. -/
def maskedEq : List Nat → List Nat → List Nat → Bool
  | a :: nn, m :: ms, b :: ip => decide (a &&& m = b &&& m) && maskedEq nn ms ip
  | _, _, _ => true

/-- Go's `(*net.IPNet).Contains`. -/
def IPNet.Contains (n : IPNet) (ip : IPHunter.IP) : Bool :=
  let nn := (networkNumberAndMask n).map Prod.fst |>.getD []
  let m := (networkNumberAndMask n).map Prod.snd |>.getD []
  let ip1 := match To4 ip with
    | some x => x
    | none => ip
  if ip1.length ≠ nn.length then false
  else maskedEq nn m ip1

/-- Go's `strings.HasPrefix`. -/
def HasPrefix (s p : String) : Bool :=
  p.data.isPrefixOf s.data

/-! ## `main.go` -/

/-- What the program reads from outside the process.
* `cloudflareIPs`: the package variable of that name once `loadCloudflareIPs` has
  filled it (the trimmed, non-empty lines of `ip.conf`); it is only read afterwards.
* `lookupIP`: `net.LookupIP`, with the error dropped as the program drops it (a
  failed lookup yields the nil slice).  Its first argument is the list of the
  lookups made before, so that the resolver need not answer twice alike.
* `urlHostname`: `url.Parse` followed by `(*url.URL).Hostname`; `none` when
  `url.Parse` returns an error. -/
structure Env where
  cloudflareIPs : List String
  lookupIP : List String → String → List IP
  urlHostname : String → Option String

/-- The mutable state of a run: the map `cache.m`, the hostnames handed to
`net.LookupIP` so far (oldest first), and the strings sent on `resultChannel` so
far (oldest first). -/
structure State where
  cache : List (String × List IP)
  lookups : List String
  resultChannel : List String
deriving DecidableEq, Repr

/-- The map read `ips, ok := cache.m[domain]`: `none` when `ok` is false. -/
def cacheGet : List (String × List IP) → String → Option (List IP)
  | [], _ => none
  | (k, v) :: rest, domain => if k = domain then some v else cacheGet rest domain

/-- The map write `cache.m[domain] = ips`. -/
def cacheSet (m : List (String × List IP)) (domain : String) (ips : List IP) :
    List (String × List IP) :=
  (domain, ips) :: m.filter (fun e => e.1 ≠ domain)

/-- The channel send `resultChannel <- line`. -/
def State.send (st : State) (line : String) : State :=
  { st with resultChannel := st.resultChannel ++ [line] }

/-- `isCloudflareIP` of `main.go`, its result: the scan over `cloudflareIPs`; an
entry that `net.ParseCIDR` rejects is passed over (`continue`).  What the function
writes to standard output on the way is `isCloudflareIPPrinted`. -/
def isCloudflareIP : List String → IP → Bool
  | [], _ => false
  | cidr :: rest, ip =>
    match ParseCIDR cidr with
    | none => isCloudflareIP rest ip
    | some subnet => if subnet.Contains ip then true else isCloudflareIP rest ip

/-- The loop of `joinIPs`, at index `i`. -/
def joinIPsLoop : Nat → List IP → String
  | _, [] => ""
  | i, ip :: rest => (if i > 0 then "," else "") ++ ip.String ++ joinIPsLoop (i + 1) rest

/-- `joinIPs` of `main.go`. -/
def joinIPs (ips : List IP) : String :=
  joinIPsLoop 0 ips

/-- `formatResult` of `main.go`; the package variable `cloudflareIPs` is its first
argument. -/
def formatResult (cloudflareIPs : List String) (original : String) (ipv4s ipv6s : List IP) :
    String :=
  let r0 := original ++ " : "
  let r1 := if ipv4s.length > 0 then r0 ++ ("[" ++ joinIPs ipv4s ++ "]") else r0
  let r2 := if ipv6s.length > 0 then r1 ++ (" [" ++ joinIPs ipv6s ++ "]") else r1
  if ipv4s.length > 0 && isCloudflareIP cloudflareIPs (ipv4s.headD []) then r2 ++ " [cloudflare]"
  else r2

/-- `splitIPs` of `main.go`, the loop from the lists collected so far. -/
def splitIPsLoop : List IP → List IP → List IP → List IP × List IP
  | [], ipv4s, ipv6s => (ipv4s, ipv6s)
  | ip :: rest, ipv4s, ipv6s =>
    if To4 ip ≠ none then splitIPsLoop rest (ipv4s ++ [ip]) ipv6s
    else if To16 ip ≠ none then splitIPsLoop rest ipv4s (ipv6s ++ [ip])
    else splitIPsLoop rest ipv4s ipv6s

/-- `splitIPs` of `main.go`. -/
def splitIPs (ips : List IP) : List IP × List IP :=
  splitIPsLoop ips [] []

/-- `extractDomain` of `main.go`: `none` when it returns an error. -/
def extractDomain (env : Env) (rawURL : String) : Option String :=
  env.urlHostname rawURL

/-- `resolveAndPrintDomain` of `main.go`. -/
def resolveAndPrintDomain (env : Env) (st : State) (domain original : String) : State :=
  match cacheGet st.cache domain with
  | some ips =>
    st.send (formatResult env.cloudflareIPs original (splitIPs ips).1 (splitIPs ips).2)
  | none =>
    let ips := env.lookupIP st.lookups domain
    let st1 : State :=
      { st with cache := cacheSet st.cache domain ips, lookups := st.lookups ++ [domain] }
    st1.send (formatResult env.cloudflareIPs original (splitIPs ips).1 (splitIPs ips).2)

/-- `processInput` of `main.go`. -/
def processInput (env : Env) (st : State) (input : String) : State :=
  match ParseIP input with
  | some ip => st.send (formatResult env.cloudflareIPs input [ip] [])
  | none =>
    if HasPrefix input "http://" || HasPrefix input "https://" then
      match extractDomain env input with
      | some domain =>
        if domain ≠ "" then resolveAndPrintDomain env st domain input
        else st.send ("Invalid URL: " ++ input)
      | none => st.send ("Invalid URL: " ++ input)
    else resolveAndPrintDomain env st input input

/-- The body of a worker goroutine of `main`, run on the inputs it receives from
`domainChannel`, in order: `for input := range domainChannel { processInput(...) }`. -/
def worker (env : Env) (st : State) (inputs : List String) : State :=
  inputs.foldl (processInput env) st


/-- The number a byte sequence denotes, most significant byte first. -/
def ipValue : List Nat → Nat
  | [] => 0
  | x :: rest => x * 256 ^ rest.length + ipValue rest

/-- The form in which `(*IPNet).Contains` compares an address: the four bytes of
`To4` when that is not nil, the address itself otherwise. -/
def ipNorm (ip : IP) : IP :=
  match To4 ip with
  | some x => x
  | none => ip

/-- Numeric containment, in the words of the claim: the address belongs to the
family of the block (same number of bytes as the network number `nn`) and its
number lies in the range of `2 ^ (bits - ones)` addresses that starts at the
number of `nn`, where `bits` is the bit length of the family. -/
def numericallyContains (nn : List Nat) (ones : Nat) (ip : List Nat) : Prop :=
  ip.length = nn.length ∧ ipValue nn ≤ ipValue ip ∧
    ipValue ip < ipValue nn + 2 ^ (8 * nn.length - ones)

/-- Dotted-decimal text: every octet of `fs` followed by a dot, then `v`. -/
def dotted (fs : List Nat) (v : Nat) : List Char :=
  fs.flatMap (fun x => appendDecimal x ++ ['.']) ++ appendDecimal v

/-- The output format in the words of the spec, for comparison with `formatResult`:
the original input, `" : "`, then those of the groups `[<IPv4 list>]`,
`[<IPv6 list>]`, `[cloudflare]` that are present, in that order, separated by single
spaces. -/
def formatSpec (cloudflareIPs : List String) (original : String) (ipv4s ipv6s : List IP) :
    String :=
  original ++ " : " ++ " ".intercalate
    ((if ipv4s.length > 0 then ["[" ++ joinIPs ipv4s ++ "]"] else []) ++
     (if ipv6s.length > 0 then ["[" ++ joinIPs ipv6s ++ "]"] else []) ++
     (if ipv4s.length > 0 ∧ isCloudflareIP cloudflareIPs (ipv4s.headD []) = true
      then ["[cloudflare]"] else []))

/-! ## Concrete environments -/

/-- The state at the start of a run: empty cache, no lookup made, nothing sent. -/
def State.init : State :=
  { cache := [], lookups := [], resultChannel := [] }

/-- An environment with no range loaded, a resolver that finds nothing and a URL
parser that rejects everything. -/
def quietEnv : Env :=
  { cloudflareIPs := []
    lookupIP := fun _ _ => []
    urlHostname := fun _ => none }

/-- The environment of the spec's end-to-end scenarios: the range `104.16.0.0/12`
is configured (after a line that is no CIDR block), `example.com` resolves to
`93.184.216.34`, `cf.example` to `104.16.5.5`, every other name fails to resolve;
`url.Parse` gives `https://example.com/path` the host `example.com`, gives
`http://` an empty host and rejects `http://[::1`. -/
def scenarioEnv : Env :=
  { cloudflareIPs := ["not-a-range", "104.16.0.0/12"]
    lookupIP := fun _ d =>
      if d = "example.com" then [[93, 184, 216, 34]]
      else if d = "cf.example" then [[104, 16, 5, 5]]
      else []
    urlHostname := fun s =>
      if s = "https://example.com/path" then some "example.com"
      else if s = "http://" then some ""
      else none }

/-- An environment whose configuration holds an IPv6 block, `2606:4700::/32`, and
in which `v6only.example` resolves to the one address `2606:4700::1`. -/
def v6RangeEnv : Env :=
  { cloudflareIPs := ["2606:4700::/32"]
    lookupIP := fun _ d =>
      if d = "v6only.example" then [[38, 6, 71, 0, 0, 0, 0, 0, 0, 0, 0, 0, 0, 0, 0, 1]]
      else []
    urlHostname := fun _ => none }

/-! ## Lemmas on the address parser -/

theorem parseIPv6Loop_bad_head (n : Nat) (c : Char) (s : List Char) (ip : List Nat)
    (e : Option Nat) (hc : hexVal c = none) :
    parseIPv6Loop (n + 1) (c :: s) ip e = none := by
  rw [parseIPv6Loop]
  simp only [hexRun, hc]
  simp

theorem parseIPv6Body_bad_head (c : Char) (s : List Char) (hc : hexVal c = none)
    (h2 : c ≠ ':') : parseIPv6Body (c :: s) = none := by
  have h1 : ¬ (List.take 2 (c :: s) = [':', ':']) := by
    intro h
    cases s with
    | nil => simp at h
    | cons d t => simp at h; exact h2 h.1
  rw [parseIPv6Body, if_neg h1, parseIPv6Loop_bad_head 7 c s [] none hc]

theorem parseIPv6_bad_head (c : Char) (s : List Char) (hc : hexVal c = none)
    (h2 : c ≠ ':') (h3 : c ≠ '%') : parseIPv6 (c :: s) = none := by
  unfold parseIPv6
  have ht : List.takeWhile (fun x => decide (x ≠ '%')) (c :: s)
      = c :: List.takeWhile (fun x => decide (x ≠ '%')) s := by
    simp [List.takeWhile, h3]
  split
  · split
    · rfl
    · rw [ht, parseIPv6Body_bad_head c _ hc h2]; rfl
  · rw [parseIPv6Body_bad_head c _ hc h2]; rfl

theorem ParseIP_http (t : List Char) (s : String)
    (h : s.data = 'h' :: 't' :: 't' :: 'p' :: ':' :: t ∨
      s.data = 'h' :: 't' :: 't' :: 'p' :: 's' :: ':' :: t) : ParseIP s = none := by
  have hh : hexVal 'h' = none := by decide
  rcases h with h | h
  · have := parseIPv6_bad_head 'h' ('t' :: 't' :: 'p' :: ':' :: t) hh (by decide) (by decide)
    simp [ParseIP, ParseAddr, h, parseAddrScan, this]
  · have := parseIPv6_bad_head 'h' ('t' :: 't' :: 'p' :: 's' :: ':' :: t) hh (by decide) (by decide)
    simp [ParseIP, ParseAddr, h, parseAddrScan, this]

/-- An input with the prefix `http://` or `https://` is never an address literal. -/
theorem ParseIP_of_HasPrefix (s : String)
    (h : (HasPrefix s "http://" || HasPrefix s "https://") = true) : ParseIP s = none := by
  simp only [Bool.or_eq_true, HasPrefix, List.isPrefixOf_iff_prefix] at h
  rcases h with ⟨t, ht⟩ | ⟨t, ht⟩
  · exact ParseIP_http ('/' :: '/' :: t) s (Or.inl (by rw [← ht]; rfl))
  · exact ParseIP_http ('/' :: '/' :: t) s (Or.inr (by rw [← ht]; rfl))


/-! ## Lemmas on the cache and the channel -/

theorem cacheGet_filter_ne (m : List (String × List IP)) (k d : String) (h : k ≠ d) :
    cacheGet (m.filter (fun e => e.1 ≠ k)) d = cacheGet m d := by
  induction m with
  | nil => rfl
  | cons e rest ih =>
    obtain ⟨a, v⟩ := e
    simp only [ne_eq, decide_not] at ih ⊢
    by_cases hak : a = k
    · subst hak
      simp [List.filter, cacheGet, h, ih]
    · simp [List.filter, hak, cacheGet, ih]

theorem cacheGet_cacheSet (m : List (String × List IP)) (k d : String) (v : List IP) :
    cacheGet (cacheSet m k v) d = if k = d then some v else cacheGet m d := by
  by_cases h : k = d
  · simp [cacheSet, cacheGet, h]
  · have hf := cacheGet_filter_ne m k d h
    simp only [ne_eq, decide_not] at hf
    simp [cacheSet, cacheGet, h, hf]

/-- A call of `resolveAndPrintDomain` for a cached hostname: one line sent, nothing
else changed. -/
theorem resolveAndPrintDomain_hit (env : Env) (st : State) (d o : String) (ips : List IP)
    (h : cacheGet st.cache d = some ips) :
    resolveAndPrintDomain env st d o =
      st.send (formatResult env.cloudflareIPs o (splitIPs ips).1 (splitIPs ips).2) := by
  simp [resolveAndPrintDomain, h]

/-- An entry of the cache survives `resolveAndPrintDomain`, whatever the hostname. -/
theorem resolveAndPrintDomain_keeps (env : Env) (st : State) (k o d : String) (ips : List IP)
    (h : cacheGet st.cache d = some ips) :
    cacheGet (resolveAndPrintDomain env st k o).cache d = some ips := by
  unfold resolveAndPrintDomain
  cases hk : cacheGet st.cache k with
  | some v => simpa [State.send] using h
  | none =>
    have hne : k ≠ d := by
      intro hkd
      rw [hkd, h] at hk
      cases hk
    simp [State.send, cacheGet_cacheSet, hne, h]

/-- An entry of the cache survives `processInput`. -/
theorem processInput_keeps (env : Env) (st : State) (input d : String) (ips : List IP)
    (h : cacheGet st.cache d = some ips) :
    cacheGet (processInput env st input).cache d = some ips := by
  unfold processInput
  split
  · simpa [State.send] using h
  · split
    · split
      · split
        · exact resolveAndPrintDomain_keeps env st _ _ d ips h
        · simpa [State.send] using h
      · simpa [State.send] using h
    · exact resolveAndPrintDomain_keeps env st _ _ d ips h

/-- An entry of the cache survives any run of a worker. -/
theorem worker_keeps (env : Env) (inputs : List String) (st : State) (d : String)
    (ips : List IP) (h : cacheGet st.cache d = some ips) :
    cacheGet (worker env st inputs).cache d = some ips := by
  induction inputs generalizing st with
  | nil => exact h
  | cons i rest ih => exact ih (processInput env st i) (processInput_keeps env st i d ips h)

/-- The channel after `resolveAndPrintDomain`: exactly one more string. -/
theorem resolveAndPrintDomain_sends (env : Env) (st : State) (d o : String) :
    (resolveAndPrintDomain env st d o).resultChannel = st.resultChannel ++
      [formatResult env.cloudflareIPs o
        (splitIPs ((cacheGet st.cache d).getD (env.lookupIP st.lookups d))).1
        (splitIPs ((cacheGet st.cache d).getD (env.lookupIP st.lookups d))).2] := by
  unfold resolveAndPrintDomain
  cases hk : cacheGet st.cache d <;> simp [State.send]

/-- The line built by `formatResult`: the original, `" : "`, then the pieces the
three `if` statements append. -/
theorem formatResult_eq (cf : List String) (o : String) (v4 v6 : List IP) :
    formatResult cf o v4 v6 = o ++ " : " ++
      ((if v4.length > 0 then "[" ++ joinIPs v4 ++ "]" else "") ++
       (if v6.length > 0 then " [" ++ joinIPs v6 ++ "]" else "") ++
       (if v4.length > 0 ∧ isCloudflareIP cf (v4.headD []) = true then " [cloudflare]" else "")) := by
  unfold formatResult
  generalize isCloudflareIP cf (v4.headD []) = b
  by_cases h4 : v4.length > 0 <;> by_cases h6 : v6.length > 0 <;> cases b <;>
    simp [h4, h6, String.append_assoc]

theorem joinIPs_single (ip : IP) : joinIPs [ip] = ip.String := by
  simp [joinIPs, joinIPsLoop]

theorem splitIPs_nil : splitIPs [] = ([], []) := rfl


/-! ## Dotted-decimal text is printed back as it was read -/

theorem hexDigit_of_digit (c : Char) (h : 48 ≤ c.toNat ∧ c.toNat ≤ 57) :
    hexDigit (c.toNat - 48) = c := by
  have hc : Char.ofNat c.toNat = c := Char.ofNat_toNat c
  obtain ⟨h1, h2⟩ := h
  generalize c.toNat = n at hc h1 h2
  subst hc
  interval_cases n <;> rfl

theorem appendDecimal_small (d : Nat) (h : d ≤ 9) : appendDecimal d = [hexDigit d] := by
  interval_cases d <;> rfl

theorem appendDecimal_step : ∀ v < 26, ∀ d < 10, 1 ≤ v →
    appendDecimal (v * 10 + d) = appendDecimal v ++ [hexDigit d] := by
  decide

theorem appendDecimal_zero_length : (appendDecimal 0).length = 1 := rfl

/-- The invariant of the loop of `parseIPv4Fields`: the octets it returns, printed
in dotted form, are the text of the current octet followed by the unread text. -/
theorem parseIPv4Loop_dotted (s : List Char) :
    ∀ (first prevDot : Bool) (fields : List Nat) (val digLen : Nat) (fs : List Nat) (v : Nat),
      parseIPv4Loop s first prevDot fields val digLen = some (fs, v) →
      (digLen = 0 → val = 0 ∧ s ≠ [] ∧ (first = true ∨ prevDot = true)) →
      (digLen ≠ 0 → first = false ∧ prevDot = false ∧ (appendDecimal val).length = digLen) →
      fields.length ≤ 3 →
      ∃ more, fs = fields ++ more ∧ fs.length ≤ 3 ∧
        (if digLen = 0 then [] else appendDecimal val) ++ s = dotted more v := by
  induction s with
  | nil =>
    intro first prevDot fields val digLen fs v h h0 h1 hl
    have hd : digLen ≠ 0 := fun hz => (h0 hz).2.1 rfl
    simp only [parseIPv4Loop, Option.some.injEq, Prod.mk.injEq] at h
    obtain ⟨rfl, rfl⟩ := h
    exact ⟨[], by simp, hl, by simp [hd, dotted]⟩
  | cons c rest ih =>
    intro first prevDot fields val digLen fs v h h0 h1 hl
    rw [parseIPv4Loop] at h
    by_cases hdig : 48 ≤ c.toNat ∧ c.toNat ≤ 57
    · rw [if_pos hdig] at h
      by_cases hz : digLen = 1 ∧ val = 0
      · rw [if_pos hz] at h; cases h
      · rw [if_neg hz] at h
        by_cases hbig : val * 10 + (c.toNat - 48) > 255
        · rw [if_pos hbig] at h; cases h
        · rw [if_neg hbig] at h
          have hd9 : c.toNat - 48 ≤ 9 := by omega
          have hcur : (if digLen = 0 then [] else appendDecimal val) ++ [c]
              = appendDecimal (val * 10 + (c.toNat - 48)) ∧
              (appendDecimal (val * 10 + (c.toNat - 48))).length = digLen + 1 := by
            by_cases hd : digLen = 0
            · obtain ⟨hv, -, -⟩ := h0 hd
              subst hv
              simp [hd, appendDecimal_small _ hd9, hexDigit_of_digit c hdig]
            · obtain ⟨-, -, hlen⟩ := h1 hd
              have hv1 : 1 ≤ val := by
                rcases Nat.eq_zero_or_pos val with hv | hv
                · subst hv
                  exact absurd ⟨by rw [← hlen]; rfl, rfl⟩ hz
                · exact hv
              have hstep := appendDecimal_step val (by omega) (c.toNat - 48) (by omega) hv1
              rw [hstep, hexDigit_of_digit c hdig]
              simp [hd, hlen]
          obtain ⟨more, hfs, hlen3, htxt⟩ := ih false false fields _ (digLen + 1) fs v h
            (fun hzero => absurd hzero (Nat.succ_ne_zero _))
            (fun _ => ⟨rfl, rfl, hcur.2⟩) hl
          refine ⟨more, hfs, hlen3, ?_⟩
          rw [← htxt, if_neg (Nat.succ_ne_zero _), ← hcur.1]
          simp
    · rw [if_neg hdig] at h
      by_cases hdot : c = '.'
      · rw [if_pos hdot] at h
        by_cases hbad : first = true ∨ rest = [] ∨ prevDot = true
        · rw [if_pos hbad] at h; cases h
        · rw [if_neg hbad] at h
          by_cases h3 : fields.length = 3
          · rw [if_pos h3] at h; cases h
          · rw [if_neg h3] at h
            have hd : digLen ≠ 0 := by
              intro hzero
              rcases (h0 hzero).2.2 with hf | hp
              · exact hbad (Or.inl hf)
              · exact hbad (Or.inr (Or.inr hp))
            have hrest : rest ≠ [] := fun hr => hbad (Or.inr (Or.inl hr))
            obtain ⟨more, hfs, hlen3, htxt⟩ := ih false true (fields ++ [val]) 0 0 fs v h
              (fun _ => ⟨rfl, hrest, Or.inr rfl⟩) (fun hne => absurd rfl hne)
              (by simp; omega)
            refine ⟨val :: more, by simp [hfs], hlen3, ?_⟩
            simp only [if_true] at htxt
            simp only [List.nil_append] at htxt
            rw [if_neg hd, hdot, htxt]
            simp [dotted]
      · rw [if_neg hdot] at h; cases h

/-- What `parseIPv4Fields` accepts is four octets whose dotted form is the text. -/
theorem parseIPv4Fields_string4 (s : List Char) (b : List Nat)
    (h : parseIPv4Fields s = some b) : b.length = 4 ∧ string4 b = s := by
  unfold parseIPv4Fields at h
  cases hl : parseIPv4Loop s true false [] 0 0 with
  | none => rw [hl] at h; cases h
  | some r =>
    obtain ⟨fs, v⟩ := r
    rw [hl] at h
    by_cases h3 : fs.length < 3
    · simp [h3] at h
    · simp only [h3, if_false, Option.some.injEq] at h
      have hs : s ≠ [] := by
        intro hnil
        subst hnil
        simp only [parseIPv4Loop, Option.some.injEq, Prod.mk.injEq] at hl
        obtain ⟨rfl, -⟩ := hl
        exact h3 (by decide)
      obtain ⟨more, hfs, hlen3, htxt⟩ := parseIPv4Loop_dotted s true false [] 0 0 fs v hl
        (fun _ => ⟨rfl, hs, Or.inl rfl⟩) (fun hne => absurd rfl hne) (by decide)
      simp only [List.nil_append] at hfs
      subst hfs
      subst h
      have h3' : fs.length = 3 := by omega
      match fs, h3' with
      | [a, b, c], _ =>
        refine ⟨rfl, ?_⟩
        simp only [if_true, List.nil_append] at htxt
        rw [htxt]
        simp [string4, dotted]

theorem parseIPv6_not_v4 (s : List Char) (b : List Nat) : parseIPv6 s ≠ some (Addr.v4 b) := by
  unfold parseIPv6
  split
  · split
    · simp
    · cases parseIPv6Body (List.takeWhile (fun x => decide (x ≠ '%')) s) <;> simp
  · cases parseIPv6Body s <;> simp

/-- A text without a colon that `netip.ParseAddr` accepts went through
`parseIPv4Fields`. -/
theorem parseAddrScan_no_colon (whole : List Char) (s : List Char) (a : Addr)
    (hc : ':' ∉ s) (h : parseAddrScan whole s = some a) :
    ∃ b, a = Addr.v4 b ∧ parseIPv4Fields whole = some b := by
  induction s with
  | nil => simp [parseAddrScan] at h
  | cons c rest ih =>
    rw [parseAddrScan] at h
    have hc1 : c ≠ ':' := fun e => hc (by simp [e])
    have hc2 : ':' ∉ rest := fun e => hc (by simp [e])
    by_cases hdot : c = '.'
    · rw [if_pos hdot] at h
      cases hp : parseIPv4Fields whole with
      | none => rw [hp] at h; cases h
      | some b =>
        rw [hp] at h
        simp only [Option.map_some', Option.some.injEq] at h
        exact ⟨b, h.symm, rfl⟩
    · rw [if_neg hdot, if_neg hc1] at h
      by_cases hpc : c = '%'
      · rw [if_pos hpc] at h; cases h
      · rw [if_neg hpc] at h
        exact ih hc2 h

theorem To4_mapped (b : List Nat) (h : b.length = 4) : To4 (v4InV6Prefix ++ b) = some b := by
  match b, h with
  | [a, b, c, d], _ => simp [To4, v4InV6Prefix]

/-- An address literal without a colon (a dotted-decimal IPv4 literal) is printed by
`(net.IP).String` exactly as it was written. -/
theorem ParseIP_String_no_colon (s : String) (ip : IP) (h : ParseIP s = some ip)
    (hc : ':' ∉ s.data) : ip.String = s := by
  unfold ParseIP ParseAddr at h
  cases ha : parseAddrScan s.data s.data with
  | none => rw [ha] at h; cases h
  | some a =>
    rw [ha] at h
    obtain ⟨b, rfl, hb⟩ := parseAddrScan_no_colon s.data s.data a hc ha
    obtain ⟨hlen, hstr⟩ := parseIPv4Fields_string4 s.data b hb
    simp only [Addr.Zone, ne_eq, not_true_eq_false, if_false, Addr.As16, Option.some.injEq] at h
    subst h
    have h16 : (v4InV6Prefix ++ b).length = 16 := by simp [v4InV6Prefix, hlen]
    unfold IP.String
    rw [To4_mapped b hlen]
    simp [h16, hstr]

/-! ## `Contains` is numeric containment -/

set_option maxRecDepth 100000 in
theorem land_255 : ∀ x < 256, x &&& 255 = x := by decide

set_option maxRecDepth 100000 in
theorem land_cidr_byte : ∀ k < 8, ∀ x < 256,
    x &&& (255 - 255 / 2 ^ k) = x / 2 ^ (8 - k) * 2 ^ (8 - k) := by decide

theorem ipValue_lt (a : List Nat) (h : ∀ x ∈ a, x < 256) : ipValue a < 256 ^ a.length := by
  induction a with
  | nil => simp [ipValue]
  | cons x rest ih =>
    have hx : x < 256 := h x (by simp)
    have hr := ih (fun y hy => h y (by simp [hy]))
    simp only [ipValue, List.length_cons, pow_succ]
    nlinarith

theorem maskedEq_zero (L : Nat) : ∀ a b : List Nat, maskedEq a (cidrMaskBytes L 0) b = true := by
  induction L with
  | zero => intro a b; cases a <;> cases b <;> rfl
  | succ L ih =>
    intro a b
    cases a with
    | nil => rfl
    | cons x a =>
      cases b with
      | nil => simp [maskedEq, cidrMaskBytes]
      | cons y b => simp [maskedEq, cidrMaskBytes, ih]

theorem div_pow_split (x v P M : Nat) (hM : 0 < M) :
    (x * (M * P) + v) / M = x * P + v / M := by
  rw [show x * (M * P) = M * (x * P) by ring, Nat.mul_add_div hM]

theorem eq_of_mixed (x y r s P : Nat) (hr : r < P) (hs : s < P) :
    x * P + r = y * P + s ↔ x = y ∧ r = s := by
  constructor
  · intro h
    have h1 : (x * P + r) / P = (y * P + s) / P := by rw [h]
    have h2 : (x * P + r) % P = (y * P + s) % P := by rw [h]
    have hP : 0 < P := by omega
    rw [Nat.mul_comm x, Nat.mul_comm y, Nat.mul_add_div hP, Nat.mul_add_div hP,
      Nat.div_eq_of_lt hr, Nat.div_eq_of_lt hs] at h1
    rw [Nat.mul_comm x, Nat.mul_comm y, Nat.mul_add_mod, Nat.mul_add_mod,
      Nat.mod_eq_of_lt hr, Nat.mod_eq_of_lt hs] at h2
    exact ⟨by omega, h2⟩
  · rintro ⟨rfl, rfl⟩; rfl

/-- The comparison loop of `Contains` under a CIDR mask of `k` ones: the two byte
sequences agree under the mask exactly when their numbers agree on the leading `k`
bits. -/
theorem maskedEq_cidr (L : Nat) : ∀ (k : Nat) (a b : List Nat), a.length = L → b.length = L →
    (∀ x ∈ a, x < 256) → (∀ x ∈ b, x < 256) → k ≤ 8 * L →
    (maskedEq a (cidrMaskBytes L k) b = true ↔
      ipValue a / 2 ^ (8 * L - k) = ipValue b / 2 ^ (8 * L - k)) := by
  induction L with
  | zero =>
    intro k a b ha hb _ _ _
    rw [List.length_eq_zero] at ha hb
    subst ha; subst hb
    simp [maskedEq, ipValue]
  | succ L ih =>
    intro k a b ha hb hab hbb hk
    match a, b, ha, hb with
    | x :: a, y :: b, ha, hb =>
      have ha' : a.length = L := by simpa using ha
      have hb' : b.length = L := by simpa using hb
      have hx : x < 256 := hab x (by simp)
      have hy : y < 256 := hbb y (by simp)
      have hab' : ∀ z ∈ a, z < 256 := fun z hz => hab z (by simp [hz])
      have hbb' : ∀ z ∈ b, z < 256 := fun z hz => hbb z (by simp [hz])
      have hva := ipValue_lt a hab'
      have hvb := ipValue_lt b hbb'
      rw [ha'] at hva
      rw [hb'] at hvb
      by_cases hk8 : k ≥ 8
      · have hj : 8 * (L + 1) - k = 8 * L - (k - 8) := by omega
        have hpow : (256 : Nat) ^ L = 2 ^ (8 * L - (k - 8)) * 2 ^ (k - 8) := by
          rw [← pow_add, show (256 : Nat) = 2 ^ 8 by norm_num, ← pow_mul]
          congr 1
          omega
        have hM : 0 < 2 ^ (8 * L - (k - 8)) := Nat.pow_pos (by norm_num)
        have hra : ipValue a / 2 ^ (8 * L - (k - 8)) < 2 ^ (k - 8) := by
          apply Nat.div_lt_of_lt_mul
          rw [← hpow]; exact hva
        have hrb : ipValue b / 2 ^ (8 * L - (k - 8)) < 2 ^ (k - 8) := by
          apply Nat.div_lt_of_lt_mul
          rw [← hpow]; exact hvb
        simp only [cidrMaskBytes, if_pos hk8, maskedEq, Bool.and_eq_true, decide_eq_true_eq,
          land_255 x hx, land_255 y hy, ipValue, ha', hb', hj]
        rw [ih (k - 8) a b ha' hb' hab' hbb' (by omega), hpow, div_pow_split _ _ _ _ hM,
          div_pow_split _ _ _ _ hM, eq_of_mixed _ _ _ _ _ hra hrb]
      · have hk7 : k < 8 := by omega
        have hj : 8 * (L + 1) - k = 8 * L + (8 - k) := by omega
        have hP : 0 < (256 : Nat) ^ L := Nat.pow_pos (by norm_num)
        have hdiv : ∀ (z v : Nat), v < 256 ^ L →
            (z * 256 ^ L + v) / 2 ^ (8 * L + (8 - k)) = z / 2 ^ (8 - k) := by
          intro z v hv
          rw [pow_add, show (2 : Nat) ^ (8 * L) = 256 ^ L by
            rw [show (256 : Nat) = 2 ^ 8 by norm_num, ← pow_mul], ← Nat.div_div_eq_div_mul,
            Nat.mul_comm z, Nat.mul_add_div hP, Nat.div_eq_of_lt hv, Nat.add_zero]
        simp only [cidrMaskBytes, if_neg hk8, maskedEq, Bool.and_eq_true, decide_eq_true_eq,
          maskedEq_zero, and_true, ipValue, ha', hb', hj, hdiv x _ hva, hdiv y _ hvb,
          land_cidr_byte k hk7 x hx, land_cidr_byte k hk7 y hy]
        have hpos : 0 < 2 ^ (8 - k) := Nat.pow_pos (by norm_num)
        constructor
        · intro h
          exact Nat.eq_of_mul_eq_mul_right hpos h
        · intro h
          rw [h]

theorem cidrMaskBytes_length (L : Nat) : ∀ k, (cidrMaskBytes L k).length = L := by
  induction L with
  | zero => intro k; rfl
  | succ L ih =>
    intro k
    by_cases h : k ≥ 8 <;> simp [cidrMaskBytes, h, ih]

theorem cidrMaskBytes_le (L : Nat) : ∀ k, ∀ m ∈ cidrMaskBytes L k, m ≤ 255 := by
  induction L with
  | zero => intro k m hm; simp [cidrMaskBytes] at hm
  | succ L ih =>
    intro k m hm
    by_cases h : k ≥ 8
    · simp only [cidrMaskBytes, if_pos h, List.mem_cons] at hm
      rcases hm with rfl | hm
      · exact Nat.le_refl _
      · exact ih _ m hm
    · simp only [cidrMaskBytes, if_neg h, List.mem_cons] at hm
      rcases hm with rfl | hm
      · exact Nat.sub_le _ _
      · exact ih _ m hm

theorem cidrMaskBytes_drop (a : Nat) : ∀ (b k : Nat),
    (cidrMaskBytes (a + b) k).drop a = cidrMaskBytes b (k - 8 * a) := by
  induction a with
  | zero => intro b k; simp
  | succ a ih =>
    intro b k
    rw [show a + 1 + b = (a + b) + 1 by omega]
    by_cases h : k ≥ 8
    · simp only [cidrMaskBytes, if_pos h, List.drop_succ_cons]
      rw [ih]
      congr 1
      omega
    · simp only [cidrMaskBytes, if_neg h, List.drop_succ_cons]
      rw [ih]
      congr 1
      omega

theorem zipWith_land_lt (a m : List Nat) (hm : ∀ x ∈ m, x ≤ 255) :
    ∀ x ∈ List.zipWith (fun p q => p &&& q) a m, x < 256 := by
  induction a generalizing m with
  | nil => intro x hx; simp at hx
  | cons p a ih =>
    cases m with
    | nil => intro x hx; simp at hx
    | cons q m =>
      intro x hx
      simp only [List.zipWith_cons_cons, List.mem_cons] at hx
      rcases hx with rfl | hx
      · have h1 : p &&& q ≤ q := Nat.and_le_right
        have h2 : q ≤ 255 := hm q (by simp)
        omega
      · exact ih m (fun y hy => hm y (by simp [hy])) x hx

theorem land_low_byte (x m : Nat) (hm : m < 256) : x &&& m = (x % 256) &&& m := by
  have h1 : m = 255 &&& m := by
    rw [Nat.land_comm]; exact (land_255 m hm).symm
  have h2 : x &&& 255 = x % 256 := Nat.and_pow_two_sub_one_eq_mod x 8
  rw [h1, ← Nat.land_assoc, h2, ← h1]

theorem ipValue_zero_mask (L : Nat) : ∀ a : List Nat,
    ipValue (List.zipWith (fun p q => p &&& q) a (cidrMaskBytes L 0)) = 0 := by
  induction L with
  | zero => intro a; cases a <;> simp [cidrMaskBytes, ipValue]
  | succ L ih =>
    intro a
    cases a with
    | nil => simp [ipValue]
    | cons x a => simp [cidrMaskBytes, ipValue, ih]

/-- A byte sequence masked with a CIDR mask of `k` ones denotes a multiple of
`2 ^ (bits - k)`. -/
theorem ipValue_masked_dvd (L : Nat) : ∀ (k : Nat) (a : List Nat), a.length = L → k ≤ 8 * L →
    2 ^ (8 * L - k) ∣ ipValue (List.zipWith (fun p q => p &&& q) a (cidrMaskBytes L k)) := by
  induction L with
  | zero =>
    intro k a ha _
    rw [List.length_eq_zero] at ha
    subst ha
    simp [ipValue]
  | succ L ih =>
    intro k a ha hk
    match a, ha with
    | x :: a, ha =>
      have ha' : a.length = L := by simpa using ha
      have hlen : (List.zipWith (fun p q => p &&& q) a (cidrMaskBytes L (k - 8))).length = L := by
        simp [cidrMaskBytes_length, ha']
      by_cases hk8 : k ≥ 8
      · simp only [cidrMaskBytes, if_pos hk8, List.zipWith_cons_cons, ipValue, hlen]
        have hj : 8 * (L + 1) - k = 8 * L - (k - 8) := by omega
        rw [hj]
        apply Dvd.dvd.add
        · apply Dvd.dvd.mul_left
          rw [show (256 : Nat) = 2 ^ 8 by norm_num, ← pow_mul]
          exact pow_dvd_pow 2 (by omega)
        · exact ih (k - 8) a ha' (by omega)
      · have hk7 : k < 8 := by omega
        simp only [cidrMaskBytes, if_neg hk8, List.zipWith_cons_cons, ipValue, ipValue_zero_mask,
          Nat.add_zero]
        have hlen0 : (List.zipWith (fun p q => p &&& q) a (cidrMaskBytes L 0)).length = L := by
          simp [cidrMaskBytes_length, ha']
        have hm256 : 255 - 255 / 2 ^ k < 256 := by
          have := Nat.sub_le 255 (255 / 2 ^ k)
          omega
        rw [hlen0, land_low_byte x _ hm256,
          land_cidr_byte k hk7 (x % 256) (Nat.mod_lt _ (by norm_num)),
          show 8 * (L + 1) - k = (8 - k) + 8 * L by omega, pow_add,
          show (256 : Nat) ^ L = 2 ^ (8 * L) by
            rw [show (256 : Nat) = 2 ^ 8 by norm_num, ← pow_mul], Nat.mul_assoc]
        exact Dvd.intro_left _ rfl

/-- Agreement on the leading bits with an aligned base, as a range. -/
theorem div_eq_iff_range (v b M : Nat) (hM : 0 < M) (hb : M ∣ b) :
    v / M = b / M ↔ b ≤ v ∧ v < b + M := by
  obtain ⟨q, rfl⟩ := hb
  rw [Nat.mul_div_cancel_left q hM]
  constructor
  · intro h
    have h1 := Nat.div_add_mod v M
    have h2 := Nat.mod_lt v hM
    rw [h] at h1
    constructor
    · have h3 : M * q ≤ M * q + v % M := Nat.le_add_right _ _
      rw [h1] at h3
      exact h3
    · have h3 : M * q + v % M < M * q + M := Nat.add_lt_add_left h2 _
      rw [h1] at h3
      exact h3
  · rintro ⟨h1, h2⟩
    apply Nat.div_eq_of_lt_le
    · rw [Nat.mul_comm]; exact h1
    · rw [Nat.succ_mul, Nat.mul_comm]; exact h2

theorem parseIPv6Loop_length (n : Nat) : ∀ (s : List Char) (ip : List Nat) (e : Option Nat)
    (r : List Char × List Nat × Option Nat),
    parseIPv6Loop n s ip e = some r → ip.length + 2 * n ≤ 16 → r.2.1.length ≤ 16 := by
  induction n with
  | zero =>
    intro s ip e r h hl
    simp only [parseIPv6Loop, Option.some.injEq] at h
    subst h
    simpa using hl
  | succ n ih =>
    intro s ip e r h hl
    rw [parseIPv6Loop] at h
    split at h
    · cases h
    · split at h
      · cases h
      · split at h
        · split at h
          · cases h
          · split at h
            · cases h
            · split at h
              · cases h
              · rename_i v4 hv4
                simp only [Option.some.injEq] at h
                subst h
                have := (parseIPv4Fields_string4 _ _ hv4).1
                simp only [List.length_append]
                omega
        · split at h
          · simp only [Option.some.injEq] at h
            subst h
            simp only [List.length_append, List.length_cons, List.length_nil]
            omega
          · split at h
            · cases h
            · split at h
              · cases h
              · split at h
                · split at h
                  · cases h
                  · split at h
                    · simp only [Option.some.injEq] at h
                      subst h
                      simp only [List.length_append, List.length_cons, List.length_nil]
                      omega
                    · refine ih _ _ _ r h ?_
                      simp only [List.length_append, List.length_cons, List.length_nil]
                      omega
                · refine ih _ _ _ r h ?_
                  simp only [List.length_append, List.length_cons, List.length_nil]
                  omega

theorem parseIPv6Finish_length (s : List Char) (ip : List Nat) (e : Option Nat) (b : List Nat)
    (h : parseIPv6Finish s ip e = some b) (hl : ip.length ≤ 16) : b.length = 16 := by
  unfold parseIPv6Finish at h
  split at h
  · cases h
  · split at h
    · split at h
      · cases h
      · simp only [Option.some.injEq] at h
        subst h
        simp only [List.length_append, List.length_take, List.length_replicate, List.length_drop]
        omega
    · split at h
      · cases h
      · simp only [Option.some.injEq] at h
        subst h
        omega

theorem parseIPv6Body_length (s : List Char) (b : List Nat) (h : parseIPv6Body s = some b) :
    b.length = 16 := by
  unfold parseIPv6Body at h
  split at h
  · split at h
    · simp only [Option.some.injEq] at h
      subst h
      rfl
    · split at h
      · cases h
      · rename_i s1 ip e hloop
        exact parseIPv6Finish_length s1 ip e b h
          (parseIPv6Loop_length 8 _ _ _ _ hloop (by simp))
  · split at h
    · cases h
    · rename_i s1 ip e hloop
      exact parseIPv6Finish_length s1 ip e b h
        (parseIPv6Loop_length 8 _ _ _ _ hloop (by simp))

/-- What `netip.ParseAddr` returns has four bytes (an IPv4 address) or sixteen. -/
theorem parseAddrScan_length (whole : List Char) (s : List Char) (a : Addr)
    (h : parseAddrScan whole s = some a) :
    (∃ b, a = Addr.v4 b ∧ b.length = 4) ∨ (∃ b z, a = Addr.v6 b z ∧ b.length = 16) := by
  induction s with
  | nil => simp [parseAddrScan] at h
  | cons c rest ih =>
    rw [parseAddrScan] at h
    split at h
    · cases hp : parseIPv4Fields whole with
      | none => rw [hp] at h; cases h
      | some b =>
        rw [hp] at h
        simp only [Option.map_some', Option.some.injEq] at h
        exact Or.inl ⟨b, h.symm, (parseIPv4Fields_string4 _ _ hp).1⟩
    · split at h
      · unfold parseIPv6 at h
        split at h
        · split at h
          · cases h
          · cases hb : parseIPv6Body (List.takeWhile (fun x => decide (x ≠ '%')) whole) with
            | none => rw [hb] at h; cases h
            | some b =>
              rw [hb] at h
              simp only [Option.map_some', Option.some.injEq] at h
              exact Or.inr ⟨b, _, h.symm, parseIPv6Body_length _ _ hb⟩
        · cases hb : parseIPv6Body whole with
          | none => rw [hb] at h; cases h
          | some b =>
            rw [hb] at h
            simp only [Option.map_some', Option.some.injEq] at h
            exact Or.inr ⟨b, _, h.symm, parseIPv6Body_length _ _ hb⟩
      · split at h
        · cases h
        · exact ih h

theorem Mask_v4 (b m : List Nat) (hb : b.length = 4) (hm : m.length = 4) :
    Mask (v4InV6Prefix ++ b) m = some (List.zipWith (fun p q => p &&& q) b m) := by
  have h1 : (v4InV6Prefix ++ b).length = 16 := by simp [v4InV6Prefix, hb]
  have h2 : (v4InV6Prefix ++ b).take 12 = v4InV6Prefix := List.take_left' rfl
  have h3 : (v4InV6Prefix ++ b).drop 12 = b := List.drop_left' rfl
  simp [Mask, hm, h1, h2, h3, hb]

theorem Mask_v6 (b m : List Nat) (hb : b.length = 16) (hm : m.length = 16) :
    Mask b m = some (List.zipWith (fun p q => p &&& q) b m) := by
  simp [Mask, hm, hb]

/-- The shape of what `net.ParseCIDR` returns: the mask is a CIDR mask of four or
sixteen bytes, and the network number is an address of that length under the mask. -/
theorem ParseCIDR_shape (cidr : String) (subnet : IPNet) (h : ParseCIDR cidr = some subnet) :
    ∃ L ones a, (L = 4 ∨ L = 16) ∧ ones ≤ 8 * L ∧ a.length = L ∧
      subnet.Mask = cidrMaskBytes L ones ∧
      subnet.IP = List.zipWith (fun p q => p &&& q) a (cidrMaskBytes L ones) := by
  unfold ParseCIDR at h
  split at h
  · simp only at h
    split at h
    · cases h
    · rename_i ipAddr haddr
      split at h
      · cases h
      · split at h
        · cases h
        · rename_i n i hdtoi
          split at h
          · cases h
          · rename_i hn
            have hn' : n ≤ ipAddr.BitLen := by
              by_contra hc
              exact hn (Or.inr (by omega))
            rcases parseAddrScan_length _ _ _ haddr with ⟨b, rfl, hb⟩ | ⟨b, z, rfl, hb⟩
            · have hm : CIDRMask n 32 = some (cidrMaskBytes 4 n) := by
                simp only [Addr.BitLen] at hn'
                simp [CIDRMask, hn']
              simp only [Addr.BitLen, hm, Addr.As16,
                Mask_v4 b _ hb (cidrMaskBytes_length 4 n), Option.some.injEq] at h
              subst h
              exact ⟨4, n, b, Or.inl rfl, by simpa [Addr.BitLen] using hn', hb, rfl, rfl⟩
            · have hm : CIDRMask n 128 = some (cidrMaskBytes 16 n) := by
                simp only [Addr.BitLen] at hn'
                simp [CIDRMask, hn']
              simp only [Addr.BitLen, hm, Addr.As16,
                Mask_v6 b _ hb (cidrMaskBytes_length 16 n), Option.some.injEq] at h
              subst h
              exact ⟨16, n, b, Or.inr rfl, by simpa [Addr.BitLen] using hn', hb, rfl, rfl⟩
  · cases h

theorem ipNorm_lt (ip : IP) (h : ∀ x ∈ ip, x < 256) : ∀ x ∈ ipNorm ip, x < 256 := by
  unfold ipNorm
  cases h4 : To4 ip with
  | none => exact h
  | some y =>
    unfold To4 at h4
    split at h4
    · simp only [Option.some.injEq] at h4
      subst h4
      exact h
    · split at h4
      · simp only [Option.some.injEq] at h4
        subst h4
        intro x hx
        exact h x (List.mem_of_mem_drop hx)
      · cases h4

/-- `Contains`, once the network number and mask are known, is numeric containment
of the normalised address. -/
theorem Contains_of_network (n : IPNet) (nn a : List Nat) (k : Nat)
    (hnn : networkNumberAndMask n = some (nn, cidrMaskBytes nn.length k))
    (ha : a.length = nn.length)
    (hmasked : nn = List.zipWith (fun p q => p &&& q) a (cidrMaskBytes nn.length k))
    (hk : k ≤ 8 * nn.length) (ip : IP) (hip : ∀ x ∈ ip, x < 256) :
    n.Contains ip = true ↔ numericallyContains nn k (ipNorm ip) := by
  have hnnlt : ∀ x ∈ nn, x < 256 := by
    rw [hmasked]
    exact zipWith_land_lt _ _ (cidrMaskBytes_le _ _)
  have hdvd : 2 ^ (8 * nn.length - k) ∣ ipValue nn := by
    have := ipValue_masked_dvd nn.length k a ha hk
    rw [← hmasked] at this
    exact this
  have hpos : 0 < 2 ^ (8 * nn.length - k) := Nat.pow_pos (by norm_num)
  unfold IPNet.Contains numericallyContains
  simp only [hnn, Option.map_some', Option.getD_some]
  change (if (ipNorm ip).length ≠ nn.length then false
    else maskedEq nn (cidrMaskBytes nn.length k) (ipNorm ip)) = true ↔ _
  by_cases hl : (ipNorm ip).length = nn.length
  · simp only [hl, ne_eq, not_true_eq_false, if_false, true_and]
    rw [maskedEq_cidr nn.length k nn (ipNorm ip) rfl hl hnnlt (ipNorm_lt ip hip) hk,
      ← div_eq_iff_range _ _ _ hpos hdvd]
    exact eq_comm
  · simp [hl]

/-- The network number and mask that `Contains` works with, for a block that
`net.ParseCIDR` returned: a network number of four or sixteen bytes, which is an
address of that length under a CIDR mask of `k` ones. -/
theorem ParseCIDR_network (cidr : String) (subnet : IPNet) (h : ParseCIDR cidr = some subnet) :
    ∃ nn k a, networkNumberAndMask subnet = some (nn, cidrMaskBytes nn.length k) ∧
      (nn.length = 4 ∨ nn.length = 16) ∧ k ≤ 8 * nn.length ∧ a.length = nn.length ∧
      nn = List.zipWith (fun p q => p &&& q) a (cidrMaskBytes nn.length k) := by
  obtain ⟨L, ones, a, hL, hones, ha, hmask, hip⟩ := ParseCIDR_shape cidr subnet h
  have hlen : subnet.IP.length = L := by
    rw [hip]
    simp [cidrMaskBytes_length, ha]
  have hmlen : subnet.Mask.length = L := by
    rw [hmask]
    exact cidrMaskBytes_length L ones
  rcases hL with rfl | rfl
  · refine ⟨subnet.IP, ones, a, ?_, Or.inl hlen, by rw [hlen]; exact hones, by rw [hlen]; exact ha,
      by rw [hlen]; exact hip⟩
    simp [networkNumberAndMask, To4, hlen, hmask, cidrMaskBytes_length]
  · cases h4 : To4 subnet.IP with
    | none =>
      refine ⟨subnet.IP, ones, a, ?_, Or.inr hlen, by rw [hlen]; exact hones,
        by rw [hlen]; exact ha, by rw [hlen]; exact hip⟩
      simp [networkNumberAndMask, h4, hlen, hmask, cidrMaskBytes_length]
    | some x =>
      have hx : x = subnet.IP.drop 12 := by
        unfold To4 at h4
        rw [if_neg (by rw [hlen]; decide)] at h4
        split at h4
        · simp only [Option.some.injEq] at h4
          exact h4.symm
        · cases h4
      have hxlen : x.length = 4 := by
        rw [hx, List.length_drop, hlen]
      have hdrop : subnet.Mask.drop 12 = cidrMaskBytes 4 (ones - 96) := by
        rw [hmask]
        exact cidrMaskBytes_drop 12 4 ones
      refine ⟨x, ones - 96, a.drop 12, ?_, Or.inl hxlen, by rw [hxlen]; omega,
        by rw [hxlen, List.length_drop, ha], ?_⟩
      · simp [networkNumberAndMask, h4, hxlen, hmlen, hdrop]
      · rw [hxlen, hx, hip, List.drop_zipWith, cidrMaskBytes_drop 12 4 ones]

/-- For every block that `net.ParseCIDR` returns, `Contains` is numeric containment
in the block's range. -/
theorem ParseCIDR_Contains (cidr : String) (subnet : IPNet) (h : ParseCIDR cidr = some subnet) :
    ∃ nn k, networkNumberAndMask subnet = some (nn, cidrMaskBytes nn.length k) ∧
      (nn.length = 4 ∨ nn.length = 16) ∧ k ≤ 8 * nn.length ∧
      ∀ ip : IP, (∀ x ∈ ip, x < 256) →
        (subnet.Contains ip = true ↔ numericallyContains nn k (ipNorm ip)) := by
  obtain ⟨nn, k, a, hnn, hl, hk, ha, hmasked⟩ := ParseCIDR_network cidr subnet h
  exact ⟨nn, k, hnn, hl, hk, fun ip hip => Contains_of_network subnet nn a k hnn ha hmasked hk ip hip⟩

theorem ParseCIDR_Contains_iff (cidr : String) (subnet : IPNet)
    (h : ParseCIDR cidr = some subnet) (ip : IP) (hip : ∀ x ∈ ip, x < 256) :
    subnet.Contains ip = true ↔
      ∃ nn k, networkNumberAndMask subnet = some (nn, cidrMaskBytes nn.length k) ∧
        k ≤ 8 * nn.length ∧ numericallyContains nn k (ipNorm ip) := by
  obtain ⟨nn, k, a, hnn, -, hk, ha, hmasked⟩ := ParseCIDR_network cidr subnet h
  constructor
  · intro hc
    exact ⟨nn, k, hnn, hk, (Contains_of_network subnet nn a k hnn ha hmasked hk ip hip).1 hc⟩
  · rintro ⟨nn2, k2, hnn2, hk2, hc⟩
    rw [hnn] at hnn2
    simp only [Option.some.injEq, Prod.mk.injEq] at hnn2
    obtain ⟨rfl, hm⟩ := hnn2
    rw [hm] at hmasked hnn
    exact (Contains_of_network subnet nn a k2 hnn ha hmasked hk2 ip hip).2 hc

/-! ## The claims -/

/-- C1. For every address and every loaded list of range strings, `isCloudflareIP`
answers true exactly when some entry of the list parses as a CIDR block that
contains the address, and containment is numeric: the address, in the form
`Contains` compares (an IPv4 address as four bytes), has the length of the block's
network number and its number lies in the block's range.  Dropping the entries
that fail to parse never changes the answer, and for the empty list the answer is
false. -/
theorem isCloudflareIP_iff (ranges : List String) (ip : IP) :
    (isCloudflareIP ranges ip = true ↔
      ∃ cidr ∈ ranges, ∃ subnet, ParseCIDR cidr = some subnet ∧ subnet.Contains ip = true) ∧
    ((∀ x ∈ ip, x < 256) →
      (isCloudflareIP ranges ip = true ↔
        ∃ cidr ∈ ranges, ∃ subnet nn k, ParseCIDR cidr = some subnet ∧
          networkNumberAndMask subnet = some (nn, cidrMaskBytes nn.length k) ∧
          k ≤ 8 * nn.length ∧ numericallyContains nn k (ipNorm ip))) ∧
    isCloudflareIP ranges ip
      = isCloudflareIP (ranges.filter (fun c => (ParseCIDR c).isSome)) ip ∧
    isCloudflareIP [] ip = false := by
  have hiff : isCloudflareIP ranges ip = true ↔
      ∃ cidr ∈ ranges, ∃ subnet, ParseCIDR cidr = some subnet ∧ subnet.Contains ip = true := by
    induction ranges with
    | nil => simp [isCloudflareIP]
    | cons c rest ih =>
      cases hc : ParseCIDR c with
      | none => simp [isCloudflareIP, hc, ih]
      | some n =>
        by_cases hn : n.Contains ip = true
        · simp [isCloudflareIP, hc, hn]
        · simp [isCloudflareIP, hc, hn, ih]
  refine ⟨hiff, ?_, ?_, rfl⟩
  · intro hip
    rw [hiff]
    constructor
    · rintro ⟨cidr, hmem, subnet, hp, hc⟩
      obtain ⟨nn, k, h1, h2, h3⟩ := (ParseCIDR_Contains_iff cidr subnet hp ip hip).1 hc
      exact ⟨cidr, hmem, subnet, nn, k, hp, h1, h2, h3⟩
    · rintro ⟨cidr, hmem, subnet, nn, k, hp, h1, h2, h3⟩
      exact ⟨cidr, hmem, subnet, hp,
        (ParseCIDR_Contains_iff cidr subnet hp ip hip).2 ⟨nn, k, h1, h2, h3⟩⟩
  · clear hiff
    induction ranges with
    | nil => rfl
    | cons c rest ih =>
      cases hc : ParseCIDR c with
      | none => simp [isCloudflareIP, hc, List.filter, ih]
      | some n => simp [isCloudflareIP, hc, List.filter, ih]

/-- C1, witness: with the scenario configuration (one line that is no CIDR block, then
`104.16.0.0/12`) the address `104.16.5.5` is found, and it lies numerically in the
block of an entry. -/
theorem isCloudflareIP_iff_witness :
    (∀ x ∈ ([104, 16, 5, 5] : IP), x < 256) ∧
    isCloudflareIP scenarioEnv.cloudflareIPs [104, 16, 5, 5] = true ∧
    ∃ cidr ∈ scenarioEnv.cloudflareIPs, ∃ subnet nn k, ParseCIDR cidr = some subnet ∧
      networkNumberAndMask subnet = some (nn, cidrMaskBytes nn.length k) ∧
      k ≤ 8 * nn.length ∧ numericallyContains nn k (ipNorm [104, 16, 5, 5]) :=
  ⟨by decide, by decide,
    ((isCloudflareIP_iff scenarioEnv.cloudflareIPs [104, 16, 5, 5]).2.1 (by decide)).1 (by decide)⟩

/-- C2. After a first call of `resolveAndPrintDomain` for a hostname `d`, from any
state, the cache holds an entry for `d` (the list already cached, else the list
the lookup returned, empty when the lookup failed).  After any further inputs a
later call for `d` still finds that entry, leaves the cache unchanged, performs no
lookup, and formats that same list. -/
theorem resolveAndPrintDomain_memoizes (env : Env) (st : State) (d o : String) :
    ∃ ips : List IP,
      ips = (cacheGet st.cache d).getD (env.lookupIP st.lookups d) ∧
      cacheGet (resolveAndPrintDomain env st d o).cache d = some ips ∧
      ∀ (between : List String) (o2 : String),
        cacheGet (worker env (resolveAndPrintDomain env st d o) between).cache d = some ips ∧
        (resolveAndPrintDomain env (worker env (resolveAndPrintDomain env st d o) between) d o2).cache
          = (worker env (resolveAndPrintDomain env st d o) between).cache ∧
        (resolveAndPrintDomain env (worker env (resolveAndPrintDomain env st d o) between) d o2).lookups
          = (worker env (resolveAndPrintDomain env st d o) between).lookups ∧
        (resolveAndPrintDomain env (worker env (resolveAndPrintDomain env st d o) between) d
            o2).resultChannel
          = (worker env (resolveAndPrintDomain env st d o) between).resultChannel ++
              [formatResult env.cloudflareIPs o2 (splitIPs ips).1 (splitIPs ips).2] := by
  have h1 : cacheGet (resolveAndPrintDomain env st d o).cache d
      = some ((cacheGet st.cache d).getD (env.lookupIP st.lookups d)) := by
    unfold resolveAndPrintDomain
    cases hk : cacheGet st.cache d with
    | some v => simp [State.send, hk]
    | none => simp [State.send, cacheGet_cacheSet]
  refine ⟨_, rfl, h1, ?_⟩
  intro between o2
  have h2 := worker_keeps env between _ d _ h1
  rw [resolveAndPrintDomain_hit env _ d o2 _ h2]
  exact ⟨h2, rfl, rfl, rfl⟩

/-- C3, as amended. For every input that parses as an IPv4 or IPv6 literal,
`processInput` changes neither the cache nor the list of lookups and sends one
line: the input, `" : ["`, the parsed address in the text form of `(net.IP).String`,
`"]"`, and the provider tag exactly when the address is in a loaded range.  For a
literal without a colon (dotted-decimal IPv4) that text form is the input itself. -/
theorem processInput_literal (env : Env) (st : State) (input : String) (ip : IP)
    (h : ParseIP input = some ip) :
    processInput env st input =
      { cache := st.cache
        lookups := st.lookups
        resultChannel := st.resultChannel ++
          [input ++ " : [" ++ ip.String ++ "]" ++
            (if isCloudflareIP env.cloudflareIPs ip = true then " [cloudflare]" else "")] } ∧
    (':' ∉ input.data → ip.String = input) := by
  have e : ∀ x : String, " : " ++ ("[" ++ x) = " : [" ++ x := fun x => by
    rw [← String.append_assoc]
    rfl
  refine ⟨?_, ParseIP_String_no_colon input ip h⟩
  unfold processInput
  rw [h]
  simp only [State.send, formatResult_eq, joinIPs_single]
  by_cases hc : isCloudflareIP env.cloudflareIPs ip = true <;>
    simp [hc, String.append_assoc, e]

/-- C3, witness: the input `8.8.8.8` in the scenario environment gives the line
`8.8.8.8 : [8.8.8.8]` and leaves cache and lookups alone. -/
theorem processInput_literal_witness :
    ParseIP "8.8.8.8" = some [0, 0, 0, 0, 0, 0, 0, 0, 0, 0, 255, 255, 8, 8, 8, 8] ∧
    processInput scenarioEnv State.init "8.8.8.8" =
      { cache := [], lookups := [], resultChannel := ["8.8.8.8 : [8.8.8.8]"] } := by
  refine ⟨by decide, ?_⟩
  rw [(processInput_literal scenarioEnv State.init "8.8.8.8"
    [0, 0, 0, 0, 0, 0, 0, 0, 0, 0, 255, 255, 8, 8, 8, 8] (by decide)).1]
  decide

/-- C3, counterexample. The input `2001:DB8::1` parses as an IPv6 literal, and the
line sent for it is `2001:DB8::1 : [2001:db8::1]`: the bracket holds the canonical
text of the address, not the input. -/
theorem processInput_literal_not_echo :
    ParseIP "2001:DB8::1" = some [32, 1, 13, 184, 0, 0, 0, 0, 0, 0, 0, 0, 0, 0, 0, 1] ∧
    (processInput quietEnv State.init "2001:DB8::1").resultChannel
      = ["2001:DB8::1 : [2001:db8::1]"] ∧
    (processInput quietEnv State.init "2001:DB8::1").resultChannel
      ≠ ["2001:DB8::1" ++ " : [" ++ "2001:DB8::1" ++ "]"] := by
  decide

/-- C4. For every input with the prefix `http://` or `https://` whose host
`extractDomain` returns as a non-empty name `d`, `processInput` is the call
`resolveAndPrintDomain(d, input)`: afterwards the cache holds an entry under the key
`d`, a lookup (if the cache had no entry) was made for `d` and for nothing else,
and the line sent is `formatResult` of the unmodified input, which starts with the
input followed by `" : "`. -/
theorem processInput_url (env : Env) (st : State) (input d : String)
    (hp : (HasPrefix input "http://" || HasPrefix input "https://") = true)
    (hd : extractDomain env input = some d) (hne : d ≠ "") :
    processInput env st input = resolveAndPrintDomain env st d input ∧
    cacheGet (processInput env st input).cache d
      = some ((cacheGet st.cache d).getD (env.lookupIP st.lookups d)) ∧
    (processInput env st input).lookups
      = (if cacheGet st.cache d = none then st.lookups ++ [d] else st.lookups) ∧
    (processInput env st input).resultChannel = st.resultChannel ++
      [formatResult env.cloudflareIPs input
        (splitIPs ((cacheGet st.cache d).getD (env.lookupIP st.lookups d))).1
        (splitIPs ((cacheGet st.cache d).getD (env.lookupIP st.lookups d))).2] ∧
    ∃ groups, formatResult env.cloudflareIPs input
        (splitIPs ((cacheGet st.cache d).getD (env.lookupIP st.lookups d))).1
        (splitIPs ((cacheGet st.cache d).getD (env.lookupIP st.lookups d))).2
      = input ++ " : " ++ groups := by
  have h0 : processInput env st input = resolveAndPrintDomain env st d input := by
    unfold processInput
    rw [ParseIP_of_HasPrefix input hp]
    simp [hp, hd, hne]
  refine ⟨h0, ?_, ?_, ?_, ⟨_, formatResult_eq _ _ _ _⟩⟩
  · rw [h0]
    unfold resolveAndPrintDomain
    cases hk : cacheGet st.cache d with
    | some v => simp [State.send, hk]
    | none => simp [State.send, cacheGet_cacheSet]
  · rw [h0]
    unfold resolveAndPrintDomain
    cases hk : cacheGet st.cache d <;> simp [State.send]
  · rw [h0]
    exact resolveAndPrintDomain_sends env st d input

/-- C4, witness: in the scenario environment `https://example.com/path` has the host
`example.com`, which resolves to `93.184.216.34`; the line sent is
`https://example.com/path : [93.184.216.34]`, and the lookup and the cache entry are
for `example.com`. -/
theorem processInput_url_witness :
    processInput scenarioEnv State.init "https://example.com/path" =
      { cache := [("example.com", [[93, 184, 216, 34]])]
        lookups := ["example.com"]
        resultChannel := ["https://example.com/path : [93.184.216.34]"] } := by
  rw [(processInput_url scenarioEnv State.init "https://example.com/path" "example.com"
    (by decide) (by decide) (by decide)).1]
  decide

/-- C5. For every input with the prefix `http://` or `https://` for which
`extractDomain` returns an error or an empty hostname, `processInput` sends exactly
the line `"Invalid URL: " ++ input`, makes no lookup and leaves the cache unchanged. -/
theorem processInput_invalid_url (env : Env) (st : State) (input : String)
    (hp : (HasPrefix input "http://" || HasPrefix input "https://") = true)
    (hd : extractDomain env input = none ∨ extractDomain env input = some "") :
    processInput env st input =
      { cache := st.cache
        lookups := st.lookups
        resultChannel := st.resultChannel ++ ["Invalid URL: " ++ input] } := by
  unfold processInput
  rw [ParseIP_of_HasPrefix input hp]
  rcases hd with hd | hd <;> simp [hp, hd, State.send]

/-- C5, witness: in the scenario environment `http://[::1` is rejected by the URL
parser and `http://` has an empty host; each gives its `Invalid URL:` line. -/
theorem processInput_invalid_url_witness :
    processInput scenarioEnv State.init "http://[::1" =
      { cache := [], lookups := [], resultChannel := ["Invalid URL: http://[::1"] } ∧
    processInput scenarioEnv State.init "http://" =
      { cache := [], lookups := [], resultChannel := ["Invalid URL: http://"] } :=
  ⟨processInput_invalid_url scenarioEnv State.init "http://[::1" (by decide) (Or.inl (by decide)),
   processInput_invalid_url scenarioEnv State.init "http://" (by decide) (Or.inr (by decide))⟩


/-- C6, as amended. The input `not a valid url://::` is no address literal and has
neither the prefix `http://` nor `https://`, so `processInput` treats it as a
hostname: it is the call `resolveAndPrintDomain(input, input)`, which looks the
input up unless the cache has it, and sends `formatResult` of the input and the
addresses found.  That line is never `Invalid URL: not a valid url://::`; when no
address is found it is `not a valid url://:: : `. -/
theorem processInput_not_a_valid_url (env : Env) (st : State) :
    processInput env st "not a valid url://::"
      = resolveAndPrintDomain env st "not a valid url://::" "not a valid url://::" ∧
    (processInput env st "not a valid url://::").lookups
      = (if cacheGet st.cache "not a valid url://::" = none
         then st.lookups ++ ["not a valid url://::"] else st.lookups) ∧
    (∃ groups, (processInput env st "not a valid url://::").resultChannel
      = st.resultChannel ++ ["not a valid url://::" ++ " : " ++ groups] ∧
      "not a valid url://::" ++ " : " ++ groups ≠ "Invalid URL: not a valid url://::") ∧
    ((cacheGet st.cache "not a valid url://::").getD
        (env.lookupIP st.lookups "not a valid url://::") = [] →
      (processInput env st "not a valid url://::").resultChannel
        = st.resultChannel ++ ["not a valid url://:: : "]) := by
  have h0 : processInput env st "not a valid url://::"
      = resolveAndPrintDomain env st "not a valid url://::" "not a valid url://::" := by
    unfold processInput
    have h1 : ParseIP "not a valid url://::" = none := by decide
    have h2 : (HasPrefix "not a valid url://::" "http://"
      || HasPrefix "not a valid url://::" "https://") = false := by decide
    rw [h1]
    simp [h2]
  refine ⟨h0, ?_, ?_, ?_⟩
  · rw [h0]
    unfold resolveAndPrintDomain
    cases hk : cacheGet st.cache "not a valid url://::" <;> simp [State.send]
  · have hs := resolveAndPrintDomain_sends env st "not a valid url://::" "not a valid url://::"
    obtain ⟨g, hg⟩ : ∃ g, formatResult env.cloudflareIPs "not a valid url://::"
        (splitIPs ((cacheGet st.cache "not a valid url://::").getD
          (env.lookupIP st.lookups "not a valid url://::"))).1
        (splitIPs ((cacheGet st.cache "not a valid url://::").getD
          (env.lookupIP st.lookups "not a valid url://::"))).2
        = "not a valid url://::" ++ " : " ++ g := ⟨_, formatResult_eq _ _ _ _⟩
    rw [hg, ← h0] at hs
    refine ⟨g, hs, ?_⟩
    · intro h
      have hd := congrArg (fun x : String => x.data.head?) h
      rw [String.append_assoc] at hd
      simp [String.data_append] at hd
  · intro he
    rw [h0, resolveAndPrintDomain_sends, he]
    rfl

/-- C6, witness: in the scenario environment the name does not resolve, and the line
sent is `not a valid url://:: : `. -/
theorem processInput_not_a_valid_url_witness :
    (processInput scenarioEnv State.init "not a valid url://::").resultChannel
      = State.init.resultChannel ++ ["not a valid url://:: : "] :=
  (processInput_not_a_valid_url scenarioEnv State.init).2.2.2 (by decide)

/-- C6, counterexample. With a resolver that finds nothing and a URL parser that
rejects everything, `processInput` on `not a valid url://::` looks the input up as
a hostname and sends `not a valid url://:: : `, not the `Invalid URL:` line. -/
theorem processInput_not_a_valid_url_counterexample :
    processInput quietEnv State.init "not a valid url://::" =
      { cache := [("not a valid url://::", [])]
        lookups := ["not a valid url://::"]
        resultChannel := ["not a valid url://:: : "] } ∧
    (processInput quietEnv State.init "not a valid url://::").resultChannel
      ≠ ["Invalid URL: not a valid url://::"] := by
  decide

/-- Where `formatResult` and the format of the spec agree: whenever the IPv4 group
is present or the IPv6 group is absent. -/
theorem formatResult_eq_formatSpec (cf : List String) (o : String) (v4 v6 : List IP)
    (h : v4.length > 0 ∨ v6.length = 0) : formatResult cf o v4 v6 = formatSpec cf o v4 v6 := by
  rw [formatResult_eq, formatSpec]
  congr 1
  generalize isCloudflareIP cf (v4.headD []) = b
  by_cases h4 : v4.length > 0 <;> by_cases h6 : v6.length > 0 <;> cases b <;>
    simp [h4, h6, String.intercalate, String.intercalate.go, String.append_assoc] <;>
    first
    | omega
    | (apply String.ext; simp [String.data_append])

/-- C7, the failing input. With no IPv4 address and the one IPv6 address
`2606:4700::1`, `formatResult` puts two spaces between the colon and the IPv6
group, where the format of the spec has one. -/
theorem formatResult_v6_only :
    formatResult [] "ipv6.example" [] [[38, 6, 71, 0, 0, 0, 0, 0, 0, 0, 0, 0, 0, 0, 0, 1]]
      = "ipv6.example :  [2606:4700::1]" ∧
    formatSpec [] "ipv6.example" [] [[38, 6, 71, 0, 0, 0, 0, 0, 0, 0, 0, 0, 0, 0, 0, 1]]
      = "ipv6.example : [2606:4700::1]" ∧
    formatResult [] "nosuchhost.invalid" [] [] = "nosuchhost.invalid : " := by
  decide

/-- C8, the failing input. With the IPv6 block `2606:4700::/32` loaded, the IPv6
literal `2606:4700::1` (which is no IPv4 address: `To4` gives nil) is sent with
the `[cloudflare]` tag, while a hostname that resolves to that same single
address is sent without it. -/
theorem processInput_v6_literal_tagged :
    ParseIP "2606:4700::1" = some [38, 6, 71, 0, 0, 0, 0, 0, 0, 0, 0, 0, 0, 0, 0, 1] ∧
    To4 [38, 6, 71, 0, 0, 0, 0, 0, 0, 0, 0, 0, 0, 0, 0, 1] = none ∧
    (processInput v6RangeEnv State.init "2606:4700::1").resultChannel
      = ["2606:4700::1 : [2606:4700::1] [cloudflare]"] ∧
    (processInput v6RangeEnv State.init "v6only.example").resultChannel
      = ["v6only.example :  [2606:4700::1]"] := by
  decide

end IPHunter
